import Mathlib

/-!
Verification of the bounded history log of the JSON editor
(src/app/json-editor/page.tsx) against its specification.

The component keeps an ordered, size-bounded (100 entries) record of content
snapshots, newest first, deduplicates an insert whose content equals the most
recent entry's content, and persists the list to a single localStorage slot
("json_editor_history").  We give a shallow embedding of the relevant
functions (`addToHistory`, the mount-time history load, `clearHistory`, the
id-based selection of a history item, `formatJson`, `validateJson`) and prove
the specified properties about them.
-/

namespace JsonEditor

/-- The `HistoryItem` interface (page.tsx lines 19-23): an id string, the
content snapshot, and a timestamp in milliseconds since epoch. -/
structure HistoryItem where
  id : String
  content : String
  timestamp : Nat
  deriving Repr, DecidableEq

/-- The dedup test of `addToHistory` (page.tsx line 49):
`prev.length > 0 && prev[0].content === content`. -/
def isDupOfMostRecent (prev : List HistoryItem) (content : String) : Bool :=
  match prev with
  | [] => false
  | first :: _ => first.content == content

/-- The list transformation performed by the `setHistory` updater inside
`addToHistory` (page.tsx lines 47-62), with the generated `crypto.randomUUID()`
and `Date.now()` passed in as the parameters `id` and `ts`: if the new content
equals the most recent entry's content the list is returned unchanged,
otherwise the new entry is prepended and the list truncated with
`.slice(0, 100)`. -/
def addToHistoryList (prev : List HistoryItem) (content id : String) (ts : Nat) :
    List HistoryItem :=
  if isDupOfMostRecent prev content then prev
  else ({ id := id, content := content, timestamp := ts } :: prev).take 100

/-- The value held by the persisted localStorage slot, as seen through
`JSON.parse`: either a string that parses back to an entry list (every string
written by `addToHistory` is `JSON.stringify` of such a list), or a string on
which `JSON.parse` throws. -/
inductive StoredVal where
  | parseable (entries : List HistoryItem)
  | garbage
  deriving Repr, DecidableEq

/-- The state relevant to the history log: the in-memory `history` React state
and the `json_editor_history` localStorage slot (`none` = slot absent). -/
structure HistoryState where
  history : List HistoryItem
  storage : Option StoredVal
  deriving Repr, DecidableEq

/-- Shallow embedding of `addToHistory` (page.tsx lines 46-63) including its
persistence write.  `writeOk` says whether `localStorage.setItem` succeeds on
this call; when it throws, the exception propagates out of the updater (there
is no try/catch in `addToHistory`), so the result is `Except.error` and the
in-memory state is not updated.  On the dedup path the list is returned
unchanged and no write is attempted. -/
def addToHistory (s : HistoryState) (content id : String) (ts : Nat)
    (writeOk : Bool) : Except Unit HistoryState :=
  if isDupOfMostRecent s.history content then
    Except.ok s
  else
    let newHistory :=
      ({ id := id, content := content, timestamp := ts } :: s.history).take 100
    if writeOk then
      Except.ok { history := newHistory
                  storage := some (StoredVal.parseable newHistory) }
    else
      Except.error ()

/-- The mount-time history load (page.tsx lines 35-44): read the slot; if it is
absent the initial empty history is left in place; if `JSON.parse` succeeds the
parsed value is installed as the history unchanged; if it throws, the error is
caught, logged with `console.error`, and the empty history is left in place.
The returned Bool records whether the parse failure was logged. -/
def loadHistory (storage : Option StoredVal) : List HistoryItem × Bool :=
  match storage with
  | none => ([], false)
  | some (StoredVal.parseable entries) => (entries, false)
  | some StoredVal.garbage => ([], true)

/-- Embedding of `clearHistory` (page.tsx lines 77-82): only after the user confirms, the
in-memory list is emptied and the persisted slot removed. -/
def clearHistory (s : HistoryState) (confirmed : Bool) : HistoryState :=
  if confirmed then { history := [], storage := none } else s

/-- Run a sequence of inserts (content, id, timestamp) through the pure list
transformation of `addToHistory`, starting from the empty history. -/
def insertAll (ops : List (String × String × Nat)) : List HistoryItem :=
  ops.foldl (fun acc op => addToHistoryList acc op.1 op.2.1 op.2.2) []

/-- Modelled from the spec: `get(id) -> HistoryEntry or not-found`.  The
source renders one button per entry keyed by `item.id` (page.tsx lines
348-351) and clicking the button keyed by `id` invokes `loadHistoryItem` on
the entry of the list carrying that id; the id-indexed lookup itself is the
spec's abstraction of that selection. -/
def getEntry (entries : List HistoryItem) (id : String) : Option HistoryItem :=
  entries.find? (fun e => e.id == id)

mutual

/-- JSON values, as produced by the host `JSON.parse` (number payloads
restricted to integers, which print identically in the fragment we evaluate). -/
inductive Json : Type where
  | null
  | bool (b : Bool)
  | num (n : Int)
  | str (s : String)
  | arr (xs : JsonArr)
  | obj (fs : JsonObj)

/-- A JSON array of values. -/
inductive JsonArr : Type where
  | nil
  | cons (hd : Json) (tl : JsonArr)

/-- A JSON object: an ordered list of key/value fields. -/
inductive JsonObj : Type where
  | nil
  | cons (key : String) (val : Json) (tl : JsonObj)

end

/-- The JavaScript `String.prototype.trim()`: the string with leading and
trailing whitespace removed (used by the blank-input guards on page.tsx
lines 92 and 115). -/
def jsTrim (s : String) : String :=
  String.mk (((s.toList.dropWhile Char.isWhitespace).reverse.dropWhile
    Char.isWhitespace).reverse)

/-- A run of `n` spaces of indentation. -/
def jsonIndent (n : Nat) : String := String.mk (List.replicate n ' ')

/-- The double-quote character. -/
def quoteChar : Char := Char.ofNat 34

/-- JSON string escaping as done by the host `JSON.stringify` (covering the
escapes occurring in the fragment we evaluate). -/
def escapeJsonChar (c : Char) : String :=
  if c = quoteChar then "\\\""
  else if c = '\\' then "\\\\"
  else if c = '\n' then "\\n"
  else if c = '\t' then "\\t"
  else if c = '\r' then "\\r"
  else String.singleton c

/-- Escape every character of a string for JSON output. -/
def escapeJsonString (s : String) : String :=
  String.join (s.toList.map escapeJsonChar)

/-- A JSON string literal: the escaped content wrapped in double quotes. -/
def quoteJson (s : String) : String := "\"" ++ escapeJsonString s ++ "\""

mutual

/-- Rendering as `JSON.stringify(v, null, 2)` at nesting indentation `ind`: objects and
arrays open a line, render each member indented two further spaces, and close
on a line at the current indentation; empty objects and arrays render with no
inner newline. -/
def renderJson (ind : Nat) : Json → String
  | Json.null => "null"
  | Json.bool b => if b then "true" else "false"
  | Json.num n => toString n
  | Json.str s => quoteJson s
  | Json.arr JsonArr.nil => "[]"
  | Json.arr (JsonArr.cons x xs) =>
      "[\n" ++
        String.intercalate ",\n" (renderJsonItems (ind + 2) (JsonArr.cons x xs)) ++
        "\n" ++ jsonIndent ind ++ "]"
  | Json.obj JsonObj.nil => "\x7b\x7d"
  | Json.obj (JsonObj.cons k v fs) =>
      "\x7b\n" ++
        String.intercalate ",\n" (renderJsonFields (ind + 2) (JsonObj.cons k v fs)) ++
        "\n" ++ jsonIndent ind ++ "\x7d"

/-- Render each array element at indentation `ind`, one string per element. -/
def renderJsonItems (ind : Nat) : JsonArr → List String
  | JsonArr.nil => []
  | JsonArr.cons x xs => (jsonIndent ind ++ renderJson ind x) :: renderJsonItems ind xs

/-- Render each object field at indentation `ind` as `"key": value`. -/
def renderJsonFields (ind : Nat) : JsonObj → List String
  | JsonObj.nil => []
  | JsonObj.cons k v fs =>
      (jsonIndent ind ++ quoteJson k ++ ": " ++ renderJson ind v) :: renderJsonFields ind fs

end

/-- The pretty serialization `JSON.stringify(v, null, 2)` used by `formatJson`
and `validateJson` (page.tsx lines 97 and 119). -/
def stringifyPretty (v : Json) : String := renderJson 0 v

/-- The UI state that `formatJson` and `validateJson` read and write: the raw
input textarea, the Monaco editor content (mirrored by `formattedOutput`, which
is also the fallback when the editor is not mounted), and the history list. -/
structure UIState where
  rawInput : String
  formattedOutput : String
  history : List HistoryItem

/-- Embedding of `formatJson` (page.tsx lines 88-107), with the host `JSON.parse` passed in
as the function `parse` and the generated id/timestamp as parameters: on blank
input it only clears the output; on a parse error it only sets the error
message (history untouched); on success it sets the pretty-printed output and
inserts the RAW INPUT text verbatim into the history (line 100). -/
def formatJson (parse : String → Option Json) (st : UIState) (id : String)
    (ts : Nat) : UIState :=
  if jsTrim st.rawInput = "" then { st with formattedOutput := "" }
  else
    match parse st.rawInput with
    | some parsed =>
        { st with
            formattedOutput := stringifyPretty parsed
            history := addToHistoryList st.history st.rawInput id ts }
    | none => st

/-- Embedding of `validateJson` (page.tsx lines 109-126): reads the current editor content,
and on success re-serializes it and inserts the RE-SERIALIZED pretty text into
the history (line 122), not the content that was parsed. -/
def validateJson (parse : String → Option Json) (st : UIState) (id : String)
    (ts : Nat) : UIState :=
  let currentContent := st.formattedOutput
  if jsTrim currentContent = "" then st
  else
    match parse currentContent with
    | some parsed =>
        let formatted := stringifyPretty parsed
        { st with
            formattedOutput := formatted
            history := addToHistoryList st.history formatted id ts }
    | none => st

/-- The concrete JSON value `\x7b"a":1\x7d` used in the format-then-validate
scenario. -/
def sampleJson : Json := Json.obj (JsonObj.cons "a" (Json.num 1) JsonObj.nil)

/-- The raw input text of the scenario: the sample document without any
whitespace. -/
def sampleRaw : String := "\x7b\"a\":1\x7d"

/-- The host `JSON.parse` restricted to the two strings arising in the
scenario: both the raw text and its pretty form parse to `sampleJson`. -/
def sampleParse (s : String) : Option Json :=
  if s = sampleRaw ∨ s = stringifyPretty sampleJson then some sampleJson else none

/-- A concrete sequence of 101 inserts with pairwise-distinct contents. -/
def ops101 : List (String × String × Nat) :=
  (List.range 101).map (fun n => (Nat.repr n, Nat.repr n, n))

/-- A concrete list of 101 pairwise-distinct history entries. -/
def entries101 : List HistoryItem :=
  (List.range 101).map (fun n => { id := Nat.repr n, content := Nat.repr n, timestamp := n })

end JsonEditor

namespace JsonEditor

/-- The dedup test is false whenever the new content differs from the content
of every entry of the list (in particular from the most recent one). -/
theorem isDupOfMostRecent_eq_false (prev : List HistoryItem) (c : String)
    (h : ∀ e ∈ prev, c ≠ e.content) : isDupOfMostRecent prev c = false := by
  cases prev with
  | nil => rfl
  | cons first rest =>
      simp only [isDupOfMostRecent, beq_eq_false_iff_ne, ne_eq]
      intro hc
      exact h first (List.mem_cons_self _ _) hc.symm

/-- The dedup test is true when the most recent entry has the new content. -/
theorem isDupOfMostRecent_eq_true (l : List HistoryItem) (c : String)
    (e : HistoryItem) (hh : l.head? = some e) (hc : e.content = c) :
    isDupOfMostRecent l c = true := by
  cases l with
  | nil => simp at hh
  | cons first rest =>
      simp only [List.head?_cons, Option.some.injEq] at hh
      subst hh
      simp [isDupOfMostRecent, hc]

/-- One insert keeps the list length at or below the 100-entry cap. -/
theorem addToHistoryList_length_le (prev : List HistoryItem) (c i : String)
    (t : Nat) (h : prev.length ≤ 100) :
    (addToHistoryList prev c i t).length ≤ 100 := by
  unfold addToHistoryList
  split
  · exact h
  · rw [List.length_take]
    exact min_le_left _ _

/-- Folding any sequence of inserts over a list within the cap stays within
the cap. -/
theorem insertAll_aux_length (ops : List (String × String × Nat)) :
    ∀ acc : List HistoryItem, acc.length ≤ 100 →
      (ops.foldl (fun a op => addToHistoryList a op.1 op.2.1 op.2.2) acc).length ≤ 100 := by
  induction ops with
  | nil => exact fun _ h => h
  | cons op rest ih =>
      intro acc h
      exact ih _ (addToHistoryList_length_le _ _ _ _ h)

/-- Truncating the rear list before an append does not change a truncation of
the whole append. -/
theorem take_append_take {α : Type} (xs ys : List α) (n : Nat) :
    (xs ++ ys.take n).take n = (xs ++ ys).take n := by
  rw [List.take_append_eq_append_take, List.take_append_eq_append_take,
    List.take_take, Nat.min_eq_left (Nat.sub_le n xs.length)]

/-- Contents after folding a sequence of inserts with pairwise-distinct
contents (all absent from the accumulator): the inserted contents in reverse
order, in front of the old contents, truncated to the cap. -/
theorem insertAll_aux_contents (ops : List (String × String × Nat)) :
    ∀ acc : List HistoryItem,
      (ops.map (fun op => op.1)).Pairwise (fun a b => a ≠ b) →
      (∀ op ∈ ops, ∀ e ∈ acc, op.1 ≠ e.content) →
      acc.length ≤ 100 →
      (ops.foldl (fun a op => addToHistoryList a op.1 op.2.1 op.2.2) acc).map
          (fun e => e.content) =
        ((ops.map (fun op => op.1)).reverse ++ acc.map (fun e => e.content)).take 100 := by
  induction ops with
  | nil =>
      intro acc _ _ hlen
      simp only [List.foldl_nil, List.map_nil, List.reverse_nil, List.nil_append]
      rw [List.take_of_length_le]
      simpa using hlen
  | cons op rest ih =>
      intro acc hpw hdisj hlen
      have hdup : isDupOfMostRecent acc op.1 = false :=
        isDupOfMostRecent_eq_false acc op.1 (hdisj op (List.mem_cons_self _ _))
      have hstep : addToHistoryList acc op.1 op.2.1 op.2.2 =
          ({ id := op.2.1, content := op.1, timestamp := op.2.2 } :: acc).take 100 := by
        unfold addToHistoryList
        rw [hdup]
        simp
      have hpw' : (rest.map (fun op => op.1)).Pairwise (fun a b => a ≠ b) :=
        (List.pairwise_cons.mp (by simpa using hpw)).2
      have hhead : ∀ b ∈ rest.map (fun op => op.1), op.1 ≠ b :=
        (List.pairwise_cons.mp (by simpa using hpw)).1
      have hdisj' : ∀ op' ∈ rest,
          ∀ e ∈ ({ id := op.2.1, content := op.1, timestamp := op.2.2 } :: acc).take 100,
            op'.1 ≠ e.content := by
        intro op' hop' e he
        rcases List.mem_cons.mp (List.mem_of_mem_take he) with he' | he'
        · subst he'
          exact fun hc =>
            hhead op'.1 (List.mem_map.mpr ⟨op', hop', rfl⟩) hc.symm
        · exact hdisj op' (List.mem_cons_of_mem _ hop') e he'
      have hlen' :
          (({ id := op.2.1, content := op.1, timestamp := op.2.2 } :: acc).take 100).length ≤ 100 := by
        rw [List.length_take]
        exact min_le_left _ _
      simp only [List.foldl_cons, hstep]
      rw [ih _ hpw' hdisj' hlen', List.map_take, List.map_cons, take_append_take]
      simp only [List.map_cons, List.reverse_cons, List.append_assoc,
        List.singleton_append]

/-- If the head of the history has the inserted content, `addToHistory` is a
no-op: it returns the state (in-memory list and storage slot) unchanged, as
`Except.ok`, whether or not a write would succeed (no write is attempted). -/
theorem addToHistory_head_dup (s : HistoryState) (c i : String) (t : Nat)
    (w : Bool) (e : HistoryItem) (hh : s.history.head? = some e)
    (hc : e.content = c) : addToHistory s c i t w = Except.ok s := by
  unfold addToHistory
  rw [isDupOfMostRecent_eq_true s.history c e hh hc]
  rfl

/-- C1: for every sequence of inserts starting from the empty history the
length never exceeds 100; and a sequence of 101 inserts with pairwise-distinct
contents ends with exactly 100 entries, the 100 most recently inserted
contents in most-recent-first order, the oldest dropped. -/
theorem history_bounded_and_cap101 (ops : List (String × String × Nat)) :
    (insertAll ops).length ≤ 100 ∧
    (ops.length = 101 →
      (ops.map (fun op => op.1)).Pairwise (fun a b => a ≠ b) →
      (insertAll ops).length = 100 ∧
      (insertAll ops).map (fun e => e.content) =
        ((ops.map (fun op => op.1)).drop 1).reverse) := by
  constructor
  · exact insertAll_aux_length ops [] (by simp)
  · intro h101 hpw
    have hc := insertAll_aux_contents ops [] hpw (by simp) (by simp)
    rw [List.map_nil, List.append_nil] at hc
    have hdrop : (ops.map (fun op => op.1)).length - 100 = 1 := by
      rw [List.length_map, h101]
    have hc' : (insertAll ops).map (fun e => e.content) =
        ((ops.map (fun op => op.1)).drop 1).reverse := by
      rw [insertAll, hc, List.take_reverse, hdrop]
    refine ⟨?_, hc'⟩
    have hlen : ((insertAll ops).map (fun e => e.content)).length =
        (((ops.map (fun op => op.1)).drop 1).reverse).length := by rw [hc']
    simp only [List.length_map, List.length_reverse, List.length_drop, h101] at hlen
    exact hlen

/-- Witness for C1 at the concrete 101-insert sequence `ops101`. -/
theorem history_bounded_and_cap101_witness :
    (insertAll ops101).length = 100 ∧
    (insertAll ops101).map (fun e => e.content) =
      ((ops101.map (fun op => op.1)).drop 1).reverse :=
  (history_bounded_and_cap101 ops101).2 (by decide) (by decide)

/-- On the non-dup path with a succeeding write, `addToHistory` prepends the
new entry, truncates to 100, and persists exactly that list. -/
theorem addToHistory_new (s : HistoryState) (c i : String) (t : Nat)
    (hdup : isDupOfMostRecent s.history c = false) :
    addToHistory s c i t true =
      Except.ok
        { history :=
            (({ id := i, content := c, timestamp := t } : HistoryItem) :: s.history).take 100
          storage := some (StoredVal.parseable
            ((({ id := i, content := c, timestamp := t } : HistoryItem) :: s.history).take 100)) } := by
  unfold addToHistory
  rw [hdup]
  rfl

/-- The head of the truncated prepend is the new entry. -/
theorem head?_take100_cons (e : HistoryItem) (l : List HistoryItem) :
    ((e :: l).take 100).head? = some e := by
  rw [List.head?_take]
  simp

/-- C2: an insert whose content equals the most recent entry's content leaves
the state (list and persisted slot) unchanged; consequently inserting the same
content twice in direct succession leaves the list unchanged after the second
call. -/
theorem insert_dup_is_noop :
    (∀ (s : HistoryState) (c i : String) (t : Nat) (w : Bool) (e : HistoryItem),
        s.history.head? = some e → e.content = c →
        addToHistory s c i t w = Except.ok s) ∧
    (∀ (s s' : HistoryState) (c i : String) (t : Nat) (i' : String) (t' : Nat)
        (w' : Bool),
        addToHistory s c i t true = Except.ok s' →
        addToHistory s' c i' t' w' = Except.ok s') := by
  constructor
  · exact fun s c i t w e hh hc => addToHistory_head_dup s c i t w e hh hc
  · intro s s' c i t i' t' w' h
    by_cases hdup : isDupOfMostRecent s.history c = true
    · cases hs : s.history with
      | nil => rw [hs] at hdup; simp [isDupOfMostRecent] at hdup
      | cons first rest =>
          rw [hs] at hdup
          simp only [isDupOfMostRecent, beq_iff_eq] at hdup
          have h1 : addToHistory s c i t true = Except.ok s :=
            addToHistory_head_dup s c i t true first (by rw [hs]; rfl) hdup
          rw [h1, Except.ok.injEq] at h
          subst h
          exact addToHistory_head_dup s c i' t' w' first (by rw [hs]; rfl) hdup
    · have hdup' : isDupOfMostRecent s.history c = false := by
        simpa using hdup
      rw [addToHistory_new s c i t hdup', Except.ok.injEq] at h
      subst h
      exact addToHistory_head_dup _ c i' t' w'
        { id := i, content := c, timestamp := t }
        (head?_take100_cons _ s.history) rfl

/-- Witness for C2 at concrete inputs: a duplicate-of-head insert is a no-op,
and a second insert of the same content directly after a first one is a
no-op. -/
theorem insert_dup_is_noop_witness :
    addToHistory
        { history := [{ id := "i0", content := "A", timestamp := 0 }],
                      storage := none } "A" "i1" 1 true =
      Except.ok { history := [{ id := "i0", content := "A", timestamp := 0 }],
                              storage := none } ∧
    addToHistory
        { history := [{ id := "i1", content := "A", timestamp := 1 }],
                      storage := some (StoredVal.parseable
                        [{ id := "i1", content := "A", timestamp := 1 }]) } "A" "i2" 2 true =
      Except.ok
        { history := [{ id := "i1", content := "A", timestamp := 1 }],
                      storage := some (StoredVal.parseable
                        [{ id := "i1", content := "A", timestamp := 1 }]) } :=
  ⟨insert_dup_is_noop.1 _ "A" "i1" 1 true
      { id := "i0", content := "A", timestamp := 0 } rfl rfl,
    insert_dup_is_noop.2 { history := [], storage := none } _ "A" "i1" 1 "i2" 2
      true rfl⟩

/-- C3: deduplication compares only against the immediately preceding most
recent entry: inserting A, A, B, A from empty yields the content sequence
A; then still A; then B, A; then A, B, A. -/
theorem dedup_adjacent_only_scenario :
    (insertAll [("A", "i1", 1)]).map (fun e => e.content) = ["A"] ∧
    (insertAll [("A", "i1", 1), ("A", "i2", 2)]).map (fun e => e.content) = ["A"] ∧
    (insertAll [("A", "i1", 1), ("A", "i2", 2), ("B", "i3", 3)]).map
      (fun e => e.content) = ["B", "A"] ∧
    (insertAll [("A", "i1", 1), ("A", "i2", 2), ("B", "i3", 3), ("A", "i4", 4)]).map
      (fun e => e.content) = ["A", "B", "A"] :=
  ⟨by decide, by decide, by decide, by decide⟩

/-- C4: inserting at most 100 pairwise-distinct contents into the empty
history yields exactly those contents in reverse insertion order (most recent
at index 0). -/
theorem insert_distinct_reversed (ops : List (String × String × Nat))
    (hlen : ops.length ≤ 100)
    (hpw : (ops.map (fun op => op.1)).Pairwise (fun a b => a ≠ b)) :
    (insertAll ops).map (fun e => e.content) =
      (ops.map (fun op => op.1)).reverse := by
  have hc := insertAll_aux_contents ops [] hpw (by simp) (by simp)
  rw [List.map_nil, List.append_nil] at hc
  rw [insertAll, hc, List.take_of_length_le]
  simpa using hlen

/-- Witness for C4 at a concrete 3-insert sequence. -/
theorem insert_distinct_reversed_witness :
    (insertAll [("A", "i1", 1), ("B", "i2", 2), ("C", "i3", 3)]).map
        (fun e => e.content) =
      (([("A", "i1", 1), ("B", "i2", 2), ("C", "i3", 3)] :
          List (String × String × Nat)).map (fun op => op.1)).reverse :=
  insert_distinct_reversed [("A", "i1", 1), ("B", "i2", 2), ("C", "i3", 3)]
    (by decide) (by decide)

/-- C5: if the persisted slot is in sync with a non-empty in-memory list (as
on every reachable state), then after a successful `insert x` a fresh load of
the persisted slot yields a list whose first element's content is `x`. -/
theorem insert_load_roundtrip (s : HistoryState) (x i : String) (t : Nat)
    (w : Bool) (s' : HistoryState)
    (hsync : s.history ≠ [] → s.storage = some (StoredVal.parseable s.history))
    (h : addToHistory s x i t w = Except.ok s') :
    ((loadHistory s'.storage).1.head?).map (fun e => e.content) = some x := by
  by_cases hdup : isDupOfMostRecent s.history x = true
  · cases hs : s.history with
    | nil => rw [hs] at hdup; simp [isDupOfMostRecent] at hdup
    | cons first rest =>
        rw [hs] at hdup
        simp only [isDupOfMostRecent, beq_iff_eq] at hdup
        have h1 : addToHistory s x i t w = Except.ok s :=
          addToHistory_head_dup s x i t w first (by rw [hs]; rfl) hdup
        rw [h1, Except.ok.injEq] at h
        subst h
        rw [hsync (by rw [hs]; exact List.cons_ne_nil _ _), hs]
        simp [loadHistory, hdup]
  · have hdup' : isDupOfMostRecent s.history x = false := by
      simpa using hdup
    cases w with
    | false =>
        exfalso
        unfold addToHistory at h
        rw [hdup'] at h
        simp at h
    | true =>
        rw [addToHistory_new s x i t hdup', Except.ok.injEq] at h
        subst h
        simp [loadHistory, head?_take100_cons]

/-- Witness for C5: inserting "A" into the empty, in-sync state and loading
the slot afresh yields "A" first. -/
theorem insert_load_roundtrip_witness :
    ((loadHistory
        ({ history := [{ id := "i1", content := "A", timestamp := 1 }],
                       storage := some (StoredVal.parseable
                         [{ id := "i1", content := "A", timestamp := 1 }]) } :
            HistoryState).storage).1.head?).map (fun e => e.content) = some "A" :=
  insert_load_roundtrip { history := [], storage := none } "A" "i1" 1 true _
    (fun hne => absurd rfl hne) rfl

/-- C6: the mount-time load is fail-soft: an absent slot and an unparseable
slot both leave the empty history in place (the parse failure being logged),
no error propagates (the load is a total function into lists), and a confirmed
clear followed by a load yields the empty list. -/
theorem load_fail_soft :
    loadHistory none = ([], false) ∧
    loadHistory (some StoredVal.garbage) = ([], true) ∧
    ∀ s : HistoryState, loadHistory (clearHistory s true).storage = ([], false) :=
  ⟨rfl, rfl, fun _ => rfl⟩

/-- Witness for C6: clearing a concrete non-empty state (with a garbage
slot) and loading afresh yields the empty list. -/
theorem load_fail_soft_witness :
    loadHistory
        (clearHistory
          { history := [{ id := "i1", content := "A", timestamp := 1 }],
                        storage := some StoredVal.garbage } true).storage =
      ([], false) :=
  load_fail_soft.2.2
    { history := [{ id := "i1", content := "A", timestamp := 1 }],
                  storage := some StoredVal.garbage }

/-- Counterexample to C7: `addToHistory` contains no try/catch around
`localStorage.setItem`, so on a failing write of fresh content the call does
NOT return a state at all — there is no `Except.ok` result, contradicting
"the failure is caught and swallowed, no error propagates, and the in-memory
list still reflects the newly inserted entry". -/
theorem write_failure_not_swallowed_cex :
    ¬ ∃ s' : HistoryState,
        addToHistory { history := [], storage := none } "A" "id0" 0 false =
          Except.ok s' := by
  rintro ⟨s', h⟩
  simp [addToHistory, isDupOfMostRecent] at h

/-- C7 amended: when the persistence write fails on an insert of
non-duplicate content, the exception propagates out of `addToHistory`
uncaught (the result is the error, not a new state), so the in-memory list is
not updated for that call. -/
theorem write_failure_propagates (s : HistoryState) (c i : String) (t : Nat)
    (hdup : isDupOfMostRecent s.history c = false) :
    addToHistory s c i t false = Except.error () := by
  unfold addToHistory
  rw [hdup]
  rfl

/-- Witness for the amended C7 at a concrete failing-write insert. -/
theorem write_failure_propagates_witness :
    addToHistory { history := [], storage := none } "A" "id0" 0 false =
      Except.error () :=
  write_failure_propagates { history := [], storage := none } "A" "id0" 0 rfl

/-- C8: looking a history list up by id yields an entry of the list carrying
that id when one is present, and not-found (`none`) otherwise. -/
theorem getEntry_found_iff (l : List HistoryItem) (id : String) :
    ((∃ e, e ∈ l ∧ e.id = id) →
      ∃ e, getEntry l id = some e ∧ e.id = id ∧ e ∈ l) ∧
    ((∀ e ∈ l, e.id ≠ id) → getEntry l id = none) := by
  constructor
  · rintro ⟨e, he, hid⟩
    cases hfind : l.find? (fun x => x.id == id) with
    | none =>
        exfalso
        have hnone := List.find?_eq_none.mp hfind e he
        simp [hid] at hnone
    | some a =>
        exact ⟨a, hfind, by simpa using List.find?_some hfind,
          List.mem_of_find?_eq_some hfind⟩
  · intro h
    apply List.find?_eq_none.mpr
    intro x hx
    simp [h x hx]

/-- Witness for C8: lookup of a present id returns its entry; lookup of an
absent id returns not-found. -/
theorem getEntry_found_iff_witness :
    (∃ e, getEntry [{ id := "a", content := "x", timestamp := 0 },
                    { id := "b", content := "y", timestamp := 1 }] "b" = some e ∧
        e.id = "b" ∧
        e ∈ [{ id := "a", content := "x", timestamp := 0 },
             { id := "b", content := "y", timestamp := 1 }]) ∧
    getEntry [{ id := "a", content := "x", timestamp := 0 },
              { id := "b", content := "y", timestamp := 1 }] "z" = none :=
  ⟨(getEntry_found_iff _ "b").1
      ⟨{ id := "b", content := "y", timestamp := 1 }, by decide, rfl⟩,
    (getEntry_found_iff _ "z").2 (by decide)⟩

/-- C9: the mount-time load installs whatever entry list the slot parses to,
unchanged and unvalidated — in particular a persisted list of 101 entries is
returned whole — and the 100-entry bound is re-established only by a later
non-duplicate insert. -/
theorem load_no_validation :
    (∀ entries : List HistoryItem,
        (loadHistory (some (StoredVal.parseable entries))).1 = entries) ∧
    (∀ entries : List HistoryItem, entries.length = 101 →
        (loadHistory (some (StoredVal.parseable entries))).1.length = 101) ∧
    (∀ (entries : List HistoryItem) (c i : String) (t : Nat),
        isDupOfMostRecent entries c = false →
        (addToHistoryList entries c i t).length ≤ 100) := by
  refine ⟨fun _ => rfl, fun entries h => h, ?_⟩
  intro entries c i t hdup
  unfold addToHistoryList
  rw [hdup]
  simp only [if_false, Bool.false_eq_true, List.length_take]
  exact min_le_left _ _

/-- Witness for C9: a persisted 101-entry list loads whole, and a subsequent
fresh-content insert brings the length back within the cap. -/
theorem load_no_validation_witness :
    (loadHistory (some (StoredVal.parseable entries101))).1.length = 101 ∧
    (addToHistoryList entries101 "fresh" "i" 0).length ≤ 100 :=
  ⟨load_no_validation.2.1 entries101 (by decide),
    load_no_validation.2.2 entries101 "fresh" "i" 0 (by decide)⟩

/-- C10: a successful Format inserts the raw input text verbatim into the
history, while a successful Validate inserts the re-serialized
pretty-printed text; on the concrete document (compact on input) the two runs
insert two entries with different contents. -/
theorem format_validate_distinct_payloads :
    (∀ (parse : String → Option Json) (st : UIState) (i : String) (t : Nat)
        (v : Json),
        jsTrim st.rawInput ≠ "" → parse st.rawInput = some v →
        (formatJson parse st i t).history =
          addToHistoryList st.history st.rawInput i t) ∧
    (∀ (parse : String → Option Json) (st : UIState) (i : String) (t : Nat)
        (v : Json),
        jsTrim st.formattedOutput ≠ "" → parse st.formattedOutput = some v →
        (validateJson parse st i t).history =
          addToHistoryList st.history (stringifyPretty v) i t) ∧
    ((validateJson sampleParse
          (formatJson sampleParse ⟨sampleRaw, "", []⟩ "i1" 1) "i2" 2).history.map
        (fun e => e.content) = [stringifyPretty sampleJson, sampleRaw] ∧
      stringifyPretty sampleJson ≠ sampleRaw) := by
  refine ⟨?_, ?_, by decide, by decide⟩
  · intro parse st i t v hne hp
    simp [formatJson, hne, hp]
  · intro parse st i t v hne hp
    simp [validateJson, hne, hp]

/-- Witness for C10: the two general statements applied to the concrete
scenario inputs. -/
theorem format_validate_distinct_payloads_witness :
    (formatJson sampleParse ⟨sampleRaw, "", []⟩ "i1" 1).history =
        addToHistoryList [] sampleRaw "i1" 1 ∧
    (validateJson sampleParse
          { rawInput := sampleRaw,
            formattedOutput := stringifyPretty sampleJson,
            history := addToHistoryList [] sampleRaw "i1" 1 } "i2" 2).history =
      addToHistoryList (addToHistoryList [] sampleRaw "i1" 1)
        (stringifyPretty sampleJson) "i2" 2 :=
  ⟨format_validate_distinct_payloads.1 sampleParse ⟨sampleRaw, "", []⟩ "i1" 1
      sampleJson (by decide) rfl,
    format_validate_distinct_payloads.2.1 sampleParse
      { rawInput := sampleRaw,
        formattedOutput := stringifyPretty sampleJson,
        history := addToHistoryList [] sampleRaw "i1" 1 } "i2" 2
      sampleJson (by decide) rfl⟩

end JsonEditor
